import Mathlib

/-!
Shallow embedding of `osgconnect/scripts/tutorial.py` (the tutorial
installer CLI) and proofs of the specification claims about it.

Python strings are modelled as `List Char` (`PyStr`); Python dicts as
insertion-ordered association lists with in-place update (`dset`);
network and filesystem effects as explicit oracle functions passed to
the embedded operations.  Loops of the source that are not structurally
recursive are given an explicit fuel parameter so that every definition
is executable by the kernel; theorems either quantify over the fuel or
state the property conditionally on the loop having terminated, which
matches the partial-correctness reading of the source's `while` loops.
-/

/-- Python strings, modelled as lists of characters. -/
abbrev PyStr := List Char

/-- Embed a Lean string literal as a `PyStr`. -/
def lit (s : String) : PyStr := s.data

/-- Python's whitespace set for `str.strip` (space, tab, newline,
carriage return, vertical tab, form feed). -/
def isPySpace (c : Char) : Bool :=
  c = ' ' || c = '\t' || c = '\n' || c = '\r' || c = '\x0b' || c = '\x0c'

/-- Python `s.strip()`: remove leading and trailing whitespace. -/
def pyStrip (s : PyStr) : PyStr :=
  ((s.dropWhile isPySpace).reverse.dropWhile isPySpace).reverse

/-- Python `s.split(",")` for the one-character separator used by the
source: split at every comma; the empty string yields `[""]`. -/
def splitComma : PyStr → List PyStr
  | [] => [[]]
  | c :: rest =>
    let r := splitComma rest
    if c = ',' then [] :: r
    else
      match r with
      | [] => [[c]]
      | h :: t => (c :: h) :: t

/-- Python `s.replace(old, new)` (all non-overlapping occurrences, left
to right), with fuel; the source only calls it with a nonempty `old`,
and `fuel = s.length` always suffices since every step consumes at
least one character. -/
def pyReplaceF (old new : PyStr) : Nat → PyStr → PyStr
  | _, [] => []
  | 0, s => s
  | fuel + 1, c :: rest =>
    if old ≠ [] ∧ old.isPrefixOf (c :: rest) then
      new ++ pyReplaceF old new fuel ((c :: rest).drop old.length)
    else
      c :: pyReplaceF old new fuel rest

/-- Python `s.replace(old, new)` for nonempty `old`. -/
def pyReplace (old new s : PyStr) : PyStr := pyReplaceF old new s.length s

/-- `os.path.join(a, b)` for a relative second component, as used by the
source. -/
def pathJoin (a b : PyStr) : PyStr := a ++ lit "/" ++ b

/-- Python `path.split("/", 1)` when a slash is present: the part before
the first slash and the part after it. -/
def splitSlash1 (s : PyStr) : PyStr × PyStr :=
  (s.takeWhile (fun c => c ≠ '/'), (s.dropWhile (fun c => c ≠ '/')).drop 1)

/-! ### Python dict model

A Python dict is an insertion-ordered mapping.  `d[k] = v` updates the
value in place when the key is present and appends otherwise; lookup
returns the value of the (unique) binding of the key. -/

/-- A catalog entry, as built by `get_tutorials`:
`{"description": ..., "url": ..., "branches_url": ...}`. -/
structure Entry where
  description : PyStr
  url : PyStr
  branches_url : PyStr
deriving DecidableEq, Repr

/-- The catalog: a Python dict from tutorial short name to entry. -/
abbrev Dict := List (PyStr × Entry)

/-- Python `d[k] = v`. -/
def dset (d : Dict) (k : PyStr) (v : Entry) : Dict :=
  if d.any (fun p => p.1 == k) then
    d.map (fun p => if p.1 == k then (k, v) else p)
  else
    d ++ [(k, v)]

/-- Python `d[k]` / `k in d`, as an optional lookup. -/
def dget (d : Dict) (k : PyStr) : Option Entry :=
  (d.find? (fun p => p.1 == k)).map (fun p => p.2)

/-- Apply a list of `d[k] = v` updates in order. -/
def applyAll (us : List (PyStr × Entry)) (d : Dict) : Dict :=
  us.foldl (fun d u => dset d u.1 u.2) d

/-! ### `githuburl` and the remote catalog fetch (`get_tutorials`, remote half) -/

/-- The fixed service credential appended to every API URL
(`OAuthClient` in tutorial.py). -/
def OAuthClientId : PyStr := lit "daf652bf17f603644de5"

/-- The fixed client secret appended to every API URL. -/
def OAuthSecret : PyStr := lit "8041808c74efe3090359b9c353a9d87e3e1d6c8f"

/-- Python's substring test `pat in s`. -/
def containsSub (pat : PyStr) : PyStr → Bool
  | [] => pat.isEmpty
  | c :: rest => pat.isPrefixOf (c :: rest) || containsSub pat rest

/-- `githuburl(path, **params)` (tutorial.py lines 43-48): prepend the API
host unless the path already holds `://`, then append the query
parameters followed by the fixed credential pair. -/
def githuburl (path : PyStr) (params : List (PyStr × PyStr)) : PyStr :=
  let path' := if containsSub (lit "://") path then path else lit "https://api.github.com" ++ path
  let allParams := params ++ [(lit "client_id", OAuthClientId), (lit "client_secret", OAuthSecret)]
  path' ++ lit "?" ++ List.intercalate (lit "&") (allParams.map (fun p => p.1 ++ lit "=" ++ p.2))

/-- One repository object of the API's JSON array (the fields the source
reads). -/
structure Repo where
  name : PyStr
  description : PyStr
  url : PyStr
  branches_url : PyStr
deriving DecidableEq, Repr

/-- One page of the repository listing: the parsed JSON array and the
optional `Link` response header. -/
structure Page where
  repos : List Repo
  linkHeader : Option PyStr
deriving DecidableEq, Repr

/-- The remote API as an oracle: a page per URL, `none` meaning the
request raises `urllib.error.HTTPError`. -/
abbrev Server := PyStr → Option Page

/-- The body of the `for repo in repos` loop (tutorial.py lines 200-209):
skip repositories whose name does not start with `pat`, otherwise record
the entry under `repo["name"].replace(pat, "")` with the
`{/branch}`-template stripped from the branches URL. -/
def recordRepo (pat : PyStr) (d : Dict) (repo : Repo) : Dict :=
  if pat.isPrefixOf repo.name then
    dset d (pyReplace pat [] repo.name)
      ⟨repo.description, repo.url, pyReplace (lit "\x7b/branch\x7d") [] repo.branches_url⟩
  else d

/-- One match of the regex `<([^>]+)>; rel="([^"]+)",* *` at the start of
the input (tutorial.py line 188): the two capture groups and the rest of
the input after the match.  Both character classes are negated
single-character classes, so the regex engine's greedy scan is exactly
take-until-delimiter. -/
def matchLink : List Char → Option (PyStr × PyStr × List Char)
  | '<' :: cs =>
    match cs.takeWhile (fun c => c ≠ '>'), cs.dropWhile (fun c => c ≠ '>') with
    | [], _ => none
    | g1, '>' :: r2 =>
      if (lit "; rel=\"").isPrefixOf r2 then
        let r3 := r2.drop 7
        match r3.takeWhile (fun c => c ≠ '"'), r3.dropWhile (fun c => c ≠ '"') with
        | [], _ => none
        | g2, '"' :: r5 =>
          some (g1, g2, (r5.dropWhile (fun c => c = ',')).dropWhile (fun c => c = ' '))
        | _, _ => none
      else none
    | _, _ => none
  | _ => none

/-- `rx.finditer(header)`: scan left to right, emitting every
non-overlapping match; fuelled (each step consumes at least one
character, so `fuel = input.length` suffices). -/
def linkMatchesF : Nat → List Char → List (PyStr × PyStr)
  | 0, _ => []
  | _ + 1, [] => []
  | fuel + 1, c :: cs =>
    match matchLink (c :: cs) with
    | some (g1, g2, rest) => (g1, g2) :: linkMatchesF fuel rest
    | none => linkMatchesF fuel cs

/-- All `(url, rel)` pairs of a `Link` header, in order. -/
def linkMatches (header : PyStr) : List (PyStr × PyStr) :=
  linkMatchesF header.length header

/-- The `for m in rx.finditer(header)` loop (tutorial.py lines 215-222):
`nexturi` starts as `None` and is overwritten by every link tagged
`"next"`. -/
def extractNext (header : PyStr) : Option PyStr :=
  (linkMatches header).foldl (fun acc m => if m.2 = lit "next" then some m.1 else acc) none

/-- The `while nexturi` pagination loop of `get_tutorials` (tutorial.py
lines 192-222), fuelled: fetch the page (an HTTP error breaks out),
record its repositories, then continue to the `Link` header's `next`
URL if there is one. -/
def runPages (server : Server) (pat : PyStr) : Nat → PyStr → Dict → Dict
  | 0, _, d => d
  | fuel + 1, nexturi, d =>
    match server nexturi with
    | none => d
    | some page =>
      let d' := page.repos.foldl (recordRepo pat) d
      match page.linkHeader with
      | none => d'
      | some header =>
        match extractNext header with
        | none => d'
        | some nxt => runPages server pat fuel nxt d'

/-- Split a collection path into `(org, pat)` (tutorial.py lines
180-186): the part before the first `/` and the part after it, or the
whole path with the implicit prefix `tutorial-` when no `/` is
present. -/
def collectionOrgPat (path : PyStr) : PyStr × PyStr :=
  if path.contains '/' then splitSlash1 path else (path, lit "tutorial-")

/-- The first page URL of a collection:
`githuburl("/orgs/%s/repos" % org, per_page=20)`. -/
def collectionFirstUri (path : PyStr) : PyStr :=
  githuburl (lit "/orgs/" ++ (collectionOrgPat path).1 ++ lit "/repos") [(lit "per_page", lit "20")]

/-- Fetch one collection: paginate from its first page URL. -/
def runCollection (server : Server) (fuel : Nat) (path : PyStr) (d : Dict) : Dict :=
  runPages server (collectionOrgPat path).2 fuel (collectionFirstUri path) d

/-- The `for path in config.github_paths` loop of `get_tutorials`
(tutorial.py lines 179-222). -/
def runRemote (server : Server) (fuel : Nat) (paths : List PyStr) (d : Dict) : Dict :=
  paths.foldl (fun d p => runCollection server fuel p d) d

/-! ### Local catalog scan (`get_tutorials`, local half) -/

/-- The local filesystem as oracles: path existence, directory listing,
directory test, and the first line of a tutorial directory's `.info`
marker file (`none` meaning the read raises `IOError`). -/
structure LocalFS where
  pathExists : PyStr → Bool
  listdir : PyStr → List PyStr
  isdir : PyStr → Bool
  infoFirstLine : PyStr → Option PyStr

/-- The entry built for a local tutorial directory (tutorial.py lines
233-241): description from the `.info` first line stripped, `"???"` on
read failure; a `file://` URL; an empty branches URL. -/
def localEntry (lfs : LocalFS) (loc : PyStr) : Entry :=
  ⟨(match lfs.infoFirstLine loc with
    | some line => pyStrip line
    | none => lit "???"),
   lit "file://" ++ loc, []⟩

/-- The `for path in config.localpaths` loop of `get_tutorials`
(tutorial.py lines 225-241): scan the brand subdirectory of every local
base path and overwrite the catalog with an entry per subdirectory. -/
def runLocal (lfs : LocalFS) (branding : PyStr) (paths : List PyStr) (d : Dict) : Dict :=
  paths.foldl (fun d path =>
    let p := pathJoin path branding
    if lfs.pathExists p then
      (lfs.listdir p).foldl (fun d name =>
        let loc := pathJoin p name
        if lfs.isdir loc then dset d name (localEntry lfs loc) else d) d
    else d) d

/-- The resolved configuration object (`connect_info`'s `simple`). -/
structure SConfig where
  branding : PyStr
  github_paths : List PyStr
  localpaths : List PyStr

/-- `get_tutorials(config)` (tutorial.py lines 173-243): the remote
fetch over all collections starting from an empty dict, then the local
scan applied on top (its placement gives local entries precedence). -/
def get_tutorials (server : Server) (lfs : LocalFS) (fuel : Nat) (cfg : SConfig) : Dict :=
  runLocal lfs cfg.branding cfg.localpaths (runRemote server fuel cfg.github_paths [])

/-! ### `tutorial_branches` -/

/-- One branch object of the branches-listing JSON array (the source
reads only `name`). -/
structure Branch where
  name : PyStr
deriving DecidableEq, Repr

/-- `tutorial_branches(config, url)` (tutorial.py lines 246-259): no
request at all for `file://` or empty URLs; the empty list on HTTP
error; otherwise the branch names in server order.  The `fetch` oracle
is the network (`none` = `urllib.error.HTTPError`). -/
def tutorial_branches (fetch : PyStr → Option (List Branch)) (url : PyStr) : List PyStr :=
  if (lit "file://").isPrefixOf url || url.isEmpty then []
  else
    match fetch url with
    | none => []
    | some branches => branches.map (fun b => b.name)

/-! ### `get_collections` -/

/-- `config.has_option("collections", item)` / `config.get("collections",
item)` over the alias table of the `[collections]` section, as a single
optional lookup. -/
def cfgLookup (tbl : List (PyStr × PyStr)) (k : PyStr) : Option PyStr :=
  (tbl.find? (fun p => p.1 == k)).map (fun p => p.2)

/-- The item loop of `get_collections` (tutorial.py lines 262-269) over
an already-split item list, with fuel charged on every step: an alias
item is recursively expanded and spliced, any other item is kept as a
literal.  The source has no fuel and no cycle guard; `none` here means
the given unfolding depth was exhausted, so `∀ fuel, ... = none`
witnesses non-termination of the source's recursion. -/
def gcItems (tbl : List (PyStr × PyStr)) : Nat → List PyStr → Option (List PyStr)
  | 0, _ => none
  | _ + 1, [] => some []
  | fuel + 1, item :: rest =>
    match cfgLookup tbl item with
    | some v =>
      match gcItems tbl fuel ((splitComma v).map pyStrip) with
      | none => none
      | some sub =>
        match gcItems tbl fuel rest with
        | none => none
        | some tail => some (sub ++ tail)
    | none =>
      match gcItems tbl fuel rest with
      | none => none
      | some tail => some (item :: tail)

/-- `get_collections(config, value)` (tutorial.py lines 262-269):
split on commas, strip each item, expand. -/
def get_collections (tbl : List (PyStr × PyStr)) (fuel : Nat) (value : PyStr) :
    Option (List PyStr) :=
  gcItems tbl fuel ((splitComma value).map pyStrip)

/-! ### `get_tutorial_dir` and install-name handling in `main` -/

/-- The n-th candidate name tried by `get_tutorial_dir`'s loop:
`base` itself, then `"%s.%d" % (base, n)` for `n ≥ 1`. -/
def trialName (base : PyStr) (k : Nat) : PyStr :=
  if k = 0 then base else base ++ lit "." ++ (Nat.repr k).data

/-- The `while os.path.exists(trial_dir)` loop of `get_tutorial_dir`
(tutorial.py lines 166-169), with the filesystem as an oracle and fuel:
starting at candidate `k`, return the first candidate that does not
exist.  The source loop returns iff some candidate is free; `fuel`
bounds how far the model looks. -/
def gtdLoop (osExists : PyStr → Bool) (base : PyStr) : Nat → Nat → Option PyStr
  | _, 0 => none
  | k, fuel + 1 =>
    if osExists (trialName base k) then gtdLoop osExists base (k + 1) fuel
    else some (trialName base k)

/-- The prefix normalization at the top of `get_tutorial_dir`
(tutorial.py lines 162-163): prepend `tutorial-` only when absent. -/
def prefixedName (tutorial : PyStr) : PyStr :=
  if (lit "tutorial-").isPrefixOf tutorial then tutorial else lit "tutorial-" ++ tutorial

/-- `base_dir = os.path.join(".", tutorial)` after prefixing. -/
def tutorialBase (tutorial : PyStr) : PyStr :=
  pathJoin (lit ".") (prefixedName tutorial)

/-- `get_tutorial_dir(tutorial)` (tutorial.py lines 158-170): the
`(base_dir, trial_dir)` pair, `none` when the model's fuel is exhausted
before a free name is found. -/
def get_tutorial_dir (osExists : PyStr → Bool) (tutorial : PyStr) (fuel : Nat) :
    Option (PyStr × PyStr) :=
  (gtdLoop osExists (tutorialBase tutorial) 0 fuel).map (fun trial => (tutorialBase tutorial, trial))

/-- The argument normalization of the install branch of `main`
(tutorial.py lines 393-394): strip one leading `tutorial-`
(`tutorial = tutorial[9:]`) before the catalog lookup. -/
def normalizeArg (tutorial : PyStr) : PyStr :=
  if (lit "tutorial-").isPrefixOf tutorial then tutorial.drop 9 else tutorial

/-! ### The install loop of `main` -/

/-- The effectful collaborators of `main`'s install loop: the working
directory's path-existence test, `shutil.copytree` success
(`false` = raises `shutil.Error`), `get_repo` success for
`(url, location, branch)` (`false` = returned `None`), and the network
used by `tutorial_branches`. -/
structure InstallWorld where
  osExists : PyStr → Bool
  copytreeOk : PyStr → PyStr → Bool
  getRepoOk : PyStr → PyStr → PyStr → Bool
  branchFetch : PyStr → Option (List Branch)

/-- The `for tutorial in [cmd] + args` install loop of `main`
(tutorial.py lines 392-431).  Returns `some (exit, installed)` where
`exit` is `some code` when the loop leaves the process with that exit
status (`return 20`, `sys.exit(1)` on copy failure, `return 1` on
download failure) and `none` when the loop completes, and `installed`
lists the destination directories materialized in order; the outer
`none` is the model's fuel exhaustion inside `get_tutorial_dir`.
Successful installs add their destination to the path-existence oracle,
as creating the directory does.  (The progress prints, the
`initialize` post-install hook and the informational base-dir-exists
message have no effect on control flow and are not modelled.) -/
def installLoop (w : InstallWorld) (branding : PyStr) (tutorials : Dict) (gtdFuel : Nat) :
    List PyStr → (PyStr → Bool) → List PyStr → Option (Option Nat × List PyStr)
  | [], _, installed => some (none, installed.reverse)
  | t :: rest, fsNow, installed =>
    let t' := normalizeArg t
    match dget tutorials t' with
    | none => some (some 20, installed.reverse)
    | some entry =>
      match get_tutorial_dir fsNow t' gtdFuel with
      | none => none
      | some (_, td) =>
        let branches := tutorial_branches w.branchFetch entry.branches_url
        if (lit "file").isPrefixOf entry.url then
          if w.copytreeOk (entry.url.drop 6) td then
            installLoop w branding tutorials gtdFuel rest
              (fun p => p == td || fsNow p) (td :: installed)
          else some (some 1, installed.reverse)
        else
          if branches.contains branding && !branding.isEmpty then
            if w.getRepoOk entry.url td branding then
              installLoop w branding tutorials gtdFuel rest
                (fun p => p == td || fsNow p) (td :: installed)
            else some (some 1, installed.reverse)
          else
            if w.getRepoOk entry.url td (lit "master") then
              installLoop w branding tutorials gtdFuel rest
                (fun p => p == td || fsNow p) (td :: installed)
            else some (some 1, installed.reverse)

/-- The per-directory update list produced by the inner local-scan loop:
one `(name, entry)` per subdirectory of `p`, in `listdir` order. -/
def localDirUpdates (lfs : LocalFS) (p : PyStr) (names : List PyStr) : List (PyStr × Entry) :=
  names.filterMap (fun name =>
    if lfs.isdir (pathJoin p name) then some (name, localEntry lfs (pathJoin p name)) else none)

/-- The full update list applied by the local scan, across all local
base paths in configured order. -/
def localUpdates (lfs : LocalFS) (branding : PyStr) (paths : List PyStr) :
    List (PyStr × Entry) :=
  (paths.map (fun path =>
    let p := pathJoin path branding
    if lfs.pathExists p then localDirUpdates lfs p (lfs.listdir p) else [])).flatten

/-- A two-tutorial catalog of local-source entries, used as the concrete
scenario for the install-loop claims: both are `file://` sources under
`/stash/t/osg`. -/
def exCatalog : Dict :=
  [(lit "demo1", ⟨lit "d1", lit "file:///stash/t/osg/demo1", []⟩),
   (lit "demo2", ⟨lit "d2", lit "file:///stash/t/osg/demo2", []⟩)]

/-- A concrete install world in which copying `demo1`'s tree raises
`shutil.Error` while copying `demo2`'s tree succeeds, the working
directory is empty, and the network is down. -/
def exWorld : InstallWorld :=
  ⟨fun _ => false,
   fun src _ => src == lit "//stash/t/osg/demo2",
   fun _ _ _ => true,
   fun _ => none⟩

theorem find?_map_replace_self (k : PyStr) (v : Entry) :
    ∀ d : Dict, d.any (fun p => p.1 == k) = true →
      (d.map (fun p => if p.1 == k then (k, v) else p)).find? (fun p => p.1 == k) =
        some (k, v)
  | p :: rest, h => by
    cases hp : (p.1 == k) with
    | true => simp [List.find?, hp]
    | false =>
      simp only [List.any_cons, hp, Bool.false_or] at h
      simp only [List.map_cons, hp, Bool.false_eq_true, if_false, List.find?, hp]
      exact find?_map_replace_self k v rest h

theorem find?_map_replace_ne (k k' : PyStr) (v : Entry) (hne : (k == k') = false) :
    ∀ d : Dict,
      (d.map (fun p => if p.1 == k then (k, v) else p)).find? (fun p => p.1 == k') =
        d.find? (fun p => p.1 == k')
  | [] => rfl
  | p :: rest => by
    cases hp : (p.1 == k) with
    | true =>
      have hk : p.1 = k := by simpa using hp
      have hpk' : (p.1 == k') = false := by rw [hk]; exact hne
      simp only [List.map_cons, hp, if_true, List.find?, hne, hpk']
      exact find?_map_replace_ne k k' v hne rest
    | false =>
      simp only [List.map_cons, hp, Bool.false_eq_true, if_false, List.find?]
      cases hq : (p.1 == k') with
      | true => rfl
      | false => exact find?_map_replace_ne k k' v hne rest

theorem find?_append_not_found {p : PyStr × Entry → Bool} :
    ∀ d : Dict, d.any p = false → ∀ t : Dict, (d ++ t).find? p = t.find? p
  | [], _, _ => rfl
  | q :: rest, h, t => by
    simp only [List.any_cons, Bool.or_eq_false_iff] at h
    simp only [List.cons_append, List.find?, h.1]
    exact find?_append_not_found rest h.2 t

theorem dget_dset_self (d : Dict) (k : PyStr) (v : Entry) :
    dget (dset d k v) k = some v := by
  unfold dset dget
  cases h : d.any (fun p => p.1 == k) with
  | true =>
    rw [if_pos rfl, find?_map_replace_self k v d h]
    rfl
  | false =>
    rw [if_neg (by simp), find?_append_not_found d h [(k, v)]]
    simp [List.find?]

theorem dget_dset_ne (d : Dict) (k k' : PyStr) (v : Entry) (hne : k' ≠ k) :
    dget (dset d k v) k' = dget d k' := by
  have hkk : (k == k') = false := by
    simp only [beq_eq_false_iff_ne]; exact fun hkk => hne hkk.symm
  unfold dset dget
  cases h : d.any (fun p => p.1 == k) with
  | true => rw [if_pos rfl, find?_map_replace_ne k k' v hkk d]
  | false =>
    rw [if_neg (by simp)]
    clear h
    induction d with
    | nil => simp [List.find?, hkk]
    | cons p rest ih =>
      simp only [List.cons_append, List.find?]
      cases hq : (p.1 == k') with
      | true => rfl
      | false => exact ih

/-! ### Claim C8: `tutorial_branches` -/

/-- C8: `tutorial_branches` returns the empty list immediately, without
consulting the network oracle, for an empty URL or a `file://`
local-source placeholder; it returns the empty list on an HTTP error;
otherwise it returns the branch names in the order of the server's JSON
array. -/
theorem tutorial_branches_spec :
    (∀ fetch fetch' : PyStr → Option (List Branch),
       tutorial_branches fetch [] = [] ∧
       tutorial_branches fetch [] = tutorial_branches fetch' []) ∧
    (∀ (fetch fetch' : PyStr → Option (List Branch)) (url : PyStr),
       (lit "file://").isPrefixOf url = true →
       tutorial_branches fetch url = [] ∧
       tutorial_branches fetch url = tutorial_branches fetch' url) ∧
    (∀ (fetch : PyStr → Option (List Branch)) (url : PyStr),
       fetch url = none → (lit "file://").isPrefixOf url = false → url ≠ [] →
       tutorial_branches fetch url = []) ∧
    (∀ (fetch : PyStr → Option (List Branch)) (url : PyStr) (bs : List Branch),
       fetch url = some bs → (lit "file://").isPrefixOf url = false → url ≠ [] →
       tutorial_branches fetch url = bs.map (fun b => b.name)) := by
  refine ⟨fun fetch fetch' => ⟨?_, ?_⟩, fun fetch fetch' url h => ⟨?_, ?_⟩, ?_, ?_⟩
  · simp [tutorial_branches]
  · simp [tutorial_branches]
  · simp [tutorial_branches, h]
  · simp [tutorial_branches, h]
  · intro fetch url hf hpre hne
    simp [tutorial_branches, hf, hpre, List.isEmpty_iff, hne]
  · intro fetch url bs hf hpre hne
    simp [tutorial_branches, hf, hpre, List.isEmpty_iff, hne]

/-- C8 witness: the three fetching behaviors at concrete inputs. -/
theorem tutorial_branches_spec_witness :
    tutorial_branches (fun _ => some [⟨lit "osg"⟩]) (lit "file:///stash/t/osg/demo") = [] ∧
    tutorial_branches (fun _ => none) (lit "https://api.github.com/repos/o/r/branches") = [] ∧
    tutorial_branches (fun _ => some [⟨lit "osg"⟩, ⟨lit "master"⟩])
        (lit "https://api.github.com/repos/o/r/branches") = [lit "osg", lit "master"] := by
  refine ⟨(tutorial_branches_spec.2.1 _ (fun _ => none) _ (by decide)).1,
    tutorial_branches_spec.2.2.1 _ _ rfl (by decide) (by decide), ?_⟩
  have := tutorial_branches_spec.2.2.2
    (fun _ => some [⟨lit "osg"⟩, ⟨lit "master"⟩])
    (lit "https://api.github.com/repos/o/r/branches")
    [⟨lit "osg"⟩, ⟨lit "master"⟩] rfl (by decide) (by decide)
  simpa using this

/-! ### Claim C4: `get_tutorial_dir` first-fit naming -/

theorem gtdLoop_first_free (osE : PyStr → Bool) (base : PyStr) :
    ∀ (fuel k : Nat) (td : PyStr), gtdLoop osE base k fuel = some td →
      ∃ i, k ≤ i ∧ td = trialName base i ∧ osE td = false ∧
        ∀ j, k ≤ j → j < i → osE (trialName base j) = true
  | fuel + 1, k, td, h => by
    rw [gtdLoop] at h
    cases hocc : osE (trialName base k) with
    | true =>
      rw [hocc, if_pos rfl] at h
      obtain ⟨i, hki, htd, hfree, hocc'⟩ := gtdLoop_first_free osE base fuel (k + 1) td h
      exact ⟨i, by omega, htd, hfree, fun j hj hji => by
        rcases Nat.eq_or_lt_of_le hj with hj' | hj'
        · exact hj' ▸ hocc
        · exact hocc' j hj' hji⟩
    | false =>
      rw [hocc, if_neg (by simp)] at h
      exact ⟨k, le_refl k, (Option.some_inj.mp h).symm,
        (Option.some_inj.mp h) ▸ hocc, fun j hj hji => absurd (lt_of_le_of_lt hj hji) (lt_irrefl k)⟩

theorem gtdLoop_total (osE : PyStr → Bool) (base : PyStr) :
    ∀ (fuel k n : Nat), osE (trialName base (k + n)) = false → n < fuel →
      (gtdLoop osE base k fuel).isSome = true
  | fuel + 1, k, n, hfree, _ => by
    rw [gtdLoop]
    cases hocc : osE (trialName base k) with
    | true =>
      rw [if_pos rfl]
      have hn : n ≠ 0 := by
        intro h0
        rw [h0, Nat.add_zero] at hfree
        rw [hfree] at hocc
        exact Bool.false_ne_true hocc
      exact gtdLoop_total osE base fuel (k + 1) (n - 1)
        (by rw [show k + 1 + (n - 1) = k + n by omega]; exact hfree) (by omega)
    | false => rw [if_neg (by simp)]; rfl

/-- C4: whenever `get_tutorial_dir` returns, the returned destination is
the first name of the sequence `./tutorial-x`, `./tutorial-x.1`,
`./tutorial-x.2`, … that does not exist — an occupied name is never
returned and every earlier candidate was occupied; and whenever any
candidate within the fuel bound is free (as is always the case on a
finite filesystem), the loop does return. -/
theorem get_tutorial_dir_first_fit :
    (∀ (osE : PyStr → Bool) (x : PyStr) (fuel : Nat) (bd td : PyStr),
       get_tutorial_dir osE x fuel = some (bd, td) →
       bd = tutorialBase x ∧
       ∃ k, td = trialName bd k ∧ osE td = false ∧
         ∀ j, j < k → osE (trialName bd j) = true) ∧
    (∀ (osE : PyStr → Bool) (x : PyStr) (n fuel : Nat),
       osE (trialName (tutorialBase x) n) = false → n < fuel →
       ∃ r, get_tutorial_dir osE x fuel = some r) := by
  constructor
  · intro osE x fuel bd td h
    rw [get_tutorial_dir] at h
    cases hl : gtdLoop osE (tutorialBase x) 0 fuel with
    | none => rw [hl] at h; simp at h
    | some trial =>
      rw [hl] at h
      have hh : (tutorialBase x, trial) = (bd, td) := by simpa using h
      obtain ⟨hbd, htd⟩ := Prod.mk.injEq _ _ _ _ |>.mp hh
      subst hbd
      subst htd
      obtain ⟨i, _, htn, hfree, hocc⟩ := gtdLoop_first_free osE (tutorialBase x) fuel 0 trial hl
      exact ⟨rfl, i, htn, hfree, fun j hj => hocc j (Nat.zero_le j) hj⟩
  · intro osE x n fuel hfree hlt
    have := gtdLoop_total osE (tutorialBase x) fuel 0 n (by rw [Nat.zero_add]; exact hfree) hlt
    cases hl : gtdLoop osE (tutorialBase x) 0 fuel with
    | none => rw [hl] at this; simp at this
    | some trial => exact ⟨(tutorialBase x, trial), by rw [get_tutorial_dir, hl]; rfl⟩

/-- C4 witness: with `./tutorial-x` and `./tutorial-x.1` both existing,
the function returns `(./tutorial-x, ./tutorial-x.2)`: the destination is
a free candidate, every earlier candidate was occupied, and the loop does
return. -/
theorem get_tutorial_dir_first_fit_witness :
    get_tutorial_dir (fun p : PyStr => p == lit "./tutorial-x" || p == lit "./tutorial-x.1")
        (lit "x") 3 = some (lit "./tutorial-x", lit "./tutorial-x.2") ∧
    (∃ k, (lit "./tutorial-x.2" : PyStr) = trialName (lit "./tutorial-x") k ∧
       ((lit "./tutorial-x.2" : PyStr) == lit "./tutorial-x"
          || (lit "./tutorial-x.2" : PyStr) == lit "./tutorial-x.1") = false ∧
       ∀ j, j < k →
         (trialName (lit "./tutorial-x") j == lit "./tutorial-x"
            || trialName (lit "./tutorial-x") j == lit "./tutorial-x.1") = true) ∧
    ∃ r, get_tutorial_dir
        (fun p : PyStr => p == lit "./tutorial-x" || p == lit "./tutorial-x.1")
        (lit "x") 3 = some r := by
  have h0 : get_tutorial_dir
      (fun p : PyStr => p == lit "./tutorial-x" || p == lit "./tutorial-x.1")
      (lit "x") 3 = some (lit "./tutorial-x", lit "./tutorial-x.2") := by decide
  refine ⟨h0, ?_, get_tutorial_dir_first_fit.2 _ (lit "x") 2 3 (by decide) (by decide)⟩
  exact (get_tutorial_dir_first_fit.1 _ (lit "x") 3 _ _ h0).2

/-! ### Claim C10: install-argument normalization -/

theorem isPrefixOf_append_self (l t : PyStr) : l.isPrefixOf (l ++ t) = true := by
  simp [List.isPrefixOf_iff_prefix]

/-- C10: for an argument `x` that does not itself carry the
`tutorial-` prefix, `main`'s normalization maps `x` and `tutorial-x` to
the same catalog key `x`, `get_tutorial_dir` then adds the prefix
exactly once, giving both the destination base `./tutorial-x`, and the
two arguments resolve to identical `get_tutorial_dir` results — never a
doubled `./tutorial-tutorial-x`. -/
theorem install_arg_normalization (x : PyStr)
    (hx : (lit "tutorial-").isPrefixOf x = false) :
    normalizeArg (lit "tutorial-" ++ x) = x ∧
    normalizeArg x = x ∧
    tutorialBase x = lit "./tutorial-" ++ x ∧
    (∀ (osE : PyStr → Bool) (fuel : Nat),
       get_tutorial_dir osE (normalizeArg (lit "tutorial-" ++ x)) fuel =
         get_tutorial_dir osE (normalizeArg x) fuel) := by
  have hstrip : normalizeArg (lit "tutorial-" ++ x) = x := by
    rw [normalizeArg, if_pos (isPrefixOf_append_self (lit "tutorial-") x),
      show (9 : Nat) = (lit "tutorial-").length from rfl, List.drop_left]
  have hid : normalizeArg x = x := by
    rw [normalizeArg, if_neg (by simp [hx])]
  refine ⟨hstrip, hid, ?_, fun osE fuel => by rw [hstrip, hid]⟩
  rw [tutorialBase, prefixedName, if_neg (by simp [hx])]
  rfl

/-- C10 witness: at `x = "quickstart"`. -/
theorem install_arg_normalization_witness :
    normalizeArg (lit "tutorial-" ++ lit "quickstart") = lit "quickstart" ∧
    normalizeArg (lit "quickstart") = lit "quickstart" ∧
    tutorialBase (lit "quickstart") = lit "./tutorial-" ++ lit "quickstart" ∧
    (∀ (osE : PyStr → Bool) (fuel : Nat),
       get_tutorial_dir osE (normalizeArg (lit "tutorial-" ++ lit "quickstart")) fuel =
         get_tutorial_dir osE (normalizeArg (lit "quickstart")) fuel) :=
  install_arg_normalization (lit "quickstart") (by decide)

/-! ### Claim C2: cyclic aliases make `get_collections` recurse forever -/

/-- C2 (code bug witness): with the alias table `{default: default}` —
a self-referential alias — no finite unfolding depth makes
`get_collections(config, "default")` return: the source's unguarded
recursion never terminates, and no `CyclicAliasError` exists in the code
to be raised. -/
theorem get_collections_cyclic_diverges :
    ∀ fuel : Nat,
      get_collections [(lit "default", lit "default")] fuel (lit "default") = none := by
  have hsplit : (splitComma (lit "default")).map pyStrip = [lit "default"] := by decide
  have hlook : cfgLookup [(lit "default", lit "default")] (lit "default") =
      some (lit "default") := by decide
  intro fuel
  rw [get_collections, hsplit]
  induction fuel with
  | zero => rfl
  | succ f ih => simp only [gcItems, hlook, hsplit, ih]

/-! ### Claim C9: acyclic alias expansion is order-preserving -/

theorem gcItems_literal (tbl : List (PyStr × PyStr)) :
    ∀ (items : List PyStr) (fuel : Nat), (∀ i ∈ items, cfgLookup tbl i = none) →
      items.length < fuel → gcItems tbl fuel items = some items
  | [], fuel + 1, _, _ => rfl
  | i :: rest, fuel + 1, hlit, hlen => by
    rw [gcItems, hlit i (List.mem_cons_self i rest),
      gcItems_literal tbl rest fuel (fun j hj => hlit j (List.mem_cons_of_mem i hj))
        (by simpa [Nat.lt_succ_iff] using Nat.lt_succ_iff.mp hlen)]

/-- C9: expanding `"a,b"` under an alias table where `a → "x,y"` and
`x`, `y` are not aliases yields the flat list `x, y` followed by the
expansion of `b`, in exactly that left-to-right order with no
deduplication — and the result is independent of everything but the
table (the embedding is a function, so determinism is inherent). -/
theorem get_collections_order (tbl : List (PyStr × PyStr)) (fuel : Nat) (bs : List PyStr)
    (ha : cfgLookup tbl (lit "a") = some (lit "x,y"))
    (hx : cfgLookup tbl (lit "x") = none)
    (hy : cfgLookup tbl (lit "y") = none)
    (hfuel : 3 ≤ fuel)
    (hb : gcItems tbl fuel [lit "b"] = some bs) :
    get_collections tbl (fuel + 1) (lit "a,b") = some (lit "x" :: lit "y" :: bs) := by
  have hsplit : (splitComma (lit "a,b")).map pyStrip = [lit "a", lit "b"] := by decide
  have hxy : (splitComma (lit "x,y")).map pyStrip = [lit "x", lit "y"] := by decide
  have hsub : gcItems tbl fuel [lit "x", lit "y"] = some [lit "x", lit "y"] :=
    gcItems_literal tbl [lit "x", lit "y"] fuel
      (by
        intro i hi
        rcases List.mem_cons.mp hi with h | h
        · rw [h]; exact hx
        · rcases List.mem_cons.mp h with h' | h'
          · rw [h']; exact hy
          · exact absurd h' (List.not_mem_nil i))
      (by simpa using hfuel)
  rw [get_collections, hsplit]
  simp only [gcItems, ha, hxy, hsub, hb]
  rfl

/-- C9 witness: `tbl = {a: "x,y"}`, `b` a literal, fuel 3. -/
theorem get_collections_order_witness :
    get_collections [(lit "a", lit "x,y")] 4 (lit "a,b") =
      some (lit "x" :: lit "y" :: [lit "b"]) :=
  get_collections_order [(lit "a", lit "x,y")] 3 [lit "b"]
    (by decide) (by decide) (by decide) (by decide) (by decide)

/-! ### Claim C6: short-name derivation uses replace-all, not prefix strip -/

/-- C6 (code bug witness): for the repository `tutorial-x-tutorial-y`
with prefix `tutorial-`, the name starts with the prefix (so it is
kept), the remainder after the leading prefix is `x-tutorial-y`, but
`repo["name"].replace(pat, "")` removes *every* occurrence of the
prefix, so the catalog records the entry under `x-y` and has no entry
under `x-tutorial-y`.  A repository whose name lacks the prefix is
indeed excluded. -/
theorem recordRepo_not_prefix_strip :
    (lit "tutorial-").isPrefixOf (lit "tutorial-x-tutorial-y") = true ∧
    (lit "tutorial-x-tutorial-y" : PyStr).drop (lit "tutorial-").length =
      lit "x-tutorial-y" ∧
    dget (recordRepo (lit "tutorial-") []
        ⟨lit "tutorial-x-tutorial-y", lit "d", lit "u", lit "b"⟩)
      (lit "x-tutorial-y") = none ∧
    dget (recordRepo (lit "tutorial-") []
        ⟨lit "tutorial-x-tutorial-y", lit "d", lit "u", lit "b"⟩)
      (lit "x-y") = some ⟨lit "d", lit "u", lit "b"⟩ ∧
    recordRepo (lit "tutorial-") [] ⟨lit "other-repo", lit "d", lit "u", lit "b"⟩ = [] := by
  decide

/-! ### Claim C7: an HTTP error stops one collection's pagination silently -/

/-- C7: when fetching a collection's first page raises an HTTP error,
the whole remote fetch degrades to skipping exactly that collection —
the entries collected by the earlier collections are kept unchanged and
the later collections are still fetched; and in general a failing page
URL leaves the accumulated catalog exactly as it was (no entry is
dropped, nothing is raised: the embedding returns the accumulator). -/
theorem http_error_stops_collection_silently (server : Server) (fuel : Nat)
    (cs1 : List PyStr) (c : PyStr) (cs2 : List PyStr) (d : Dict)
    (h : server (collectionFirstUri c) = none) :
    runRemote server fuel (cs1 ++ c :: cs2) d =
      runRemote server fuel cs2 (runRemote server fuel cs1 d) ∧
    (∀ (pat uri : PyStr) (d' : Dict), server uri = none →
       runPages server pat fuel uri d' = d') := by
  have hstop : ∀ (pat uri : PyStr) (d' : Dict), server uri = none →
      runPages server pat fuel uri d' = d' := by
    intro pat uri d' huri
    cases fuel with
    | zero => rfl
    | succ f => simp only [runPages, huri]
  refine ⟨?_, hstop⟩
  rw [runRemote, List.foldl_append]
  show List.foldl _ (runCollection server fuel c (List.foldl _ d cs1)) cs2 = _
  rw [runCollection, hstop _ _ _ h]
  rfl

/-- C7 witness: a server that errors on every URL, one collection. -/
theorem http_error_stops_collection_silently_witness :
    runRemote (fun _ => none) 1 ([] ++ lit "OSGConnect" :: []) [] =
      runRemote (fun _ => none) 1 [] (runRemote (fun _ => none) 1 [] []) ∧
    (∀ (pat uri : PyStr) (d' : Dict), (none : Option Page) = none →
       runPages (fun _ => none) pat 1 uri d' = d') :=
  http_error_stops_collection_silently (fun _ => none) 1 [] (lit "OSGConnect") [] [] rfl

/-! ### Claim C3: a failing local copy ends the whole invocation -/

/-- C3 counterexample: with two requested local-source tutorials where
`demo1`'s recursive copy fails, the invocation exits with status 1 and
installs nothing further — even though `demo2` alone would have
installed fine.  The run does *not* continue with the remaining
tutorials, contradicting the claim. -/
theorem copy_failure_kills_run_counterexample :
    installLoop exWorld (lit "osg") exCatalog 1
        [lit "demo1", lit "demo2"] exWorld.osExists [] = some (some 1, []) ∧
    installLoop exWorld (lit "osg") exCatalog 1
        [lit "demo2"] exWorld.osExists [] = some (none, [lit "./tutorial-demo2"]) := by
  decide

/-- C3 amended: when a requested tutorial resolves to a local
(`file://`) source and its recursive copy fails, `main` executes
`sys.exit(1)`: the whole invocation terminates with exit status 1, with
only the previously completed installations done and the remaining
requested tutorials never attempted. -/
theorem copy_failure_aborts_whole_run (w : InstallWorld) (branding : PyStr)
    (tutorials : Dict) (gtdFuel : Nat) (t : PyStr) (rest : List PyStr)
    (fsNow : PyStr → Bool) (installed : List PyStr) (entry : Entry) (bd td : PyStr)
    (hcat : dget tutorials (normalizeArg t) = some entry)
    (hdir : get_tutorial_dir fsNow (normalizeArg t) gtdFuel = some (bd, td))
    (hfile : (lit "file").isPrefixOf entry.url = true)
    (hfail : w.copytreeOk (entry.url.drop 6) td = false) :
    installLoop w branding tutorials gtdFuel (t :: rest) fsNow installed =
      some (some 1, installed.reverse) := by
  simp only [installLoop, hcat, hdir, hfile, hfail]
  simp

/-- C3 amended witness: the `demo1` copy failure at the concrete world. -/
theorem copy_failure_aborts_whole_run_witness :
    installLoop exWorld (lit "osg") exCatalog 1
        [lit "demo1", lit "demo2"] exWorld.osExists [] = some (some 1, []) := by
  simpa using copy_failure_aborts_whole_run exWorld (lit "osg") exCatalog 1
    (lit "demo1") [lit "demo2"] exWorld.osExists []
    ⟨lit "d1", lit "file:///stash/t/osg/demo1", []⟩
    (lit "./tutorial-demo1") (lit "./tutorial-demo1")
    (by decide) (by decide) (by decide) (by decide)

/-! ### Claim C1: local entries override remote entries -/

theorem applyAll_append (us vs : List (PyStr × Entry)) (d : Dict) :
    applyAll (us ++ vs) d = applyAll vs (applyAll us d) := by
  simp [applyAll, List.foldl_append]

theorem localDir_foldl_eq (lfs : LocalFS) (p : PyStr) :
    ∀ (names : List PyStr) (d : Dict),
      names.foldl (fun d name =>
        if lfs.isdir (pathJoin p name) then dset d name (localEntry lfs (pathJoin p name))
        else d) d =
      applyAll (localDirUpdates lfs p names) d
  | [], _ => rfl
  | n :: rest, d => by
    simp only [List.foldl_cons, localDirUpdates, List.filterMap_cons]
    cases hd : lfs.isdir (pathJoin p n) with
    | true =>
      simp only [if_true]
      rw [show applyAll ((n, localEntry lfs (pathJoin p n)) :: List.filterMap _ rest) d =
          applyAll (List.filterMap _ rest) (dset d n (localEntry lfs (pathJoin p n))) from rfl]
      exact localDir_foldl_eq lfs p rest _
    | false =>
      simp only [Bool.false_eq_true, if_false]
      exact localDir_foldl_eq lfs p rest d

theorem runLocal_eq_applyAll (lfs : LocalFS) (branding : PyStr) :
    ∀ (paths : List PyStr) (d : Dict),
      runLocal lfs branding paths d = applyAll (localUpdates lfs branding paths) d
  | [], _ => rfl
  | path :: rest, d => by
    simp only [runLocal, List.foldl_cons, localUpdates, List.map_cons, List.flatten_cons]
    rw [applyAll_append]
    cases hp : lfs.pathExists (pathJoin path branding) with
    | true =>
      simp only [hp, if_true]
      rw [show ∀ d', List.foldl _ d' rest = runLocal lfs branding rest d' from fun _ => rfl,
        runLocal_eq_applyAll lfs branding rest, localDir_foldl_eq lfs (pathJoin path branding)]
      rfl
    | false =>
      simp only [hp, Bool.false_eq_true, if_false]
      rw [show ∀ d', List.foldl _ d' rest = runLocal lfs branding rest d' from fun _ => rfl,
        runLocal_eq_applyAll lfs branding rest]
      rfl

theorem applyAll_not_mem :
    ∀ (us : List (PyStr × Entry)) (d : Dict) (k : PyStr),
      ¬ k ∈ us.map Prod.fst → dget (applyAll us d) k = dget d k
  | [], _, _, _ => rfl
  | u :: rest, d, k, h => by
    simp only [List.map_cons, List.mem_cons, not_or] at h
    rw [show applyAll (u :: rest) d = applyAll rest (dset d u.1 u.2) from rfl,
      applyAll_not_mem rest _ k h.2, dget_dset_ne _ _ _ _ h.1]

theorem applyAll_agree :
    ∀ (us : List (PyStr × Entry)) (d d' : Dict) (k : PyStr),
      k ∈ us.map Prod.fst → dget (applyAll us d) k = dget (applyAll us d') k
  | u :: rest, d, d', k, h => by
    rw [show applyAll (u :: rest) d = applyAll rest (dset d u.1 u.2) from rfl,
      show applyAll (u :: rest) d' = applyAll rest (dset d' u.1 u.2) from rfl]
    by_cases hr : k ∈ rest.map Prod.fst
    · exact applyAll_agree rest _ _ k hr
    · have hk : k = u.1 := by
        simp only [List.map_cons, List.mem_cons] at h
        exact h.resolve_right hr
      rw [applyAll_not_mem rest _ k hr, applyAll_not_mem rest _ k hr, hk,
        dget_dset_self, dget_dset_self]

/-- C1: for every tutorial name produced by the local scan — in
particular every name present both remotely and locally — the merged
catalog's entry is exactly the entry the local scan alone would produce
(description, url and branches_url all included), because `get_tutorials`
applies all local entries as overwrites after all remote entries. -/
theorem local_overrides_remote (server : Server) (lfs : LocalFS) (fuel : Nat)
    (cfg : SConfig) (name : PyStr)
    (hlocal : name ∈ (localUpdates lfs cfg.branding cfg.localpaths).map Prod.fst)
    (_hremote : (runRemote server fuel cfg.github_paths []).any (fun p => p.1 == name) = true) :
    dget (get_tutorials server lfs fuel cfg) name =
      dget (runLocal lfs cfg.branding cfg.localpaths []) name := by
  rw [get_tutorials, runLocal_eq_applyAll, runLocal_eq_applyAll]
  exact applyAll_agree _ _ _ name hlocal

/-- C1 witness: a server exposing `tutorial-demo` under collection
`OSGConnect` and a local scan exposing `demo` under
`/stash/tutorials/osg`; the merged entry for `demo` is the local one. -/
theorem local_overrides_remote_witness :
    dget (get_tutorials
        (fun uri => if uri == collectionFirstUri (lit "OSGConnect")
          then some ⟨[⟨lit "tutorial-demo", lit "remote description", lit "u", lit "bu"⟩], none⟩
          else none)
        ⟨fun p => p == lit "/stash/tutorials/osg", fun _ => [lit "demo"], fun _ => true,
          fun _ => some (lit "A local demo")⟩
        1 ⟨lit "osg", [lit "OSGConnect"], [lit "/stash/tutorials"]⟩) (lit "demo") =
      dget (runLocal
        ⟨fun p => p == lit "/stash/tutorials/osg", fun _ => [lit "demo"], fun _ => true,
          fun _ => some (lit "A local demo")⟩
        (lit "osg") [lit "/stash/tutorials"] []) (lit "demo") :=
  local_overrides_remote _ _ 1 _ (lit "demo") (by decide) (by decide)

/-! ### Claim C5: Link-header pagination parsing -/

theorem takeWhile_append_stop (p : Char → Bool) :
    ∀ l1 : List Char, (∀ c ∈ l1, p c = true) → ∀ (a : Char) (l2 : List Char), p a = false →
      (l1 ++ a :: l2).takeWhile p = l1 ∧ (l1 ++ a :: l2).dropWhile p = a :: l2
  | [], _, a, l2, ha => by
    constructor
    · simp [List.takeWhile_cons, ha]
    · simp [List.dropWhile_cons, ha]
  | c :: rest, h, a, l2, ha => by
    have hc : p c = true := h c (List.mem_cons_self c rest)
    have ih := takeWhile_append_stop p rest (fun x hx => h x (List.mem_cons_of_mem c hx)) a l2 ha
    constructor
    · simp [List.takeWhile_cons, hc, ih.1]
    · simp [List.dropWhile_cons, hc, ih.2]

theorem matchLink_single (U rel : PyStr) (tail : List Char)
    (hU : U ≠ []) (hUc : ∀ c ∈ U, ¬ c = '>')
    (hrel : rel ≠ []) (hrelc : ∀ c ∈ rel, ¬ c = '"') :
    matchLink ('<' :: (U ++ '>' :: (lit "; rel=\"" ++ (rel ++ '"' :: tail)))) =
      some (U, rel, (tail.dropWhile (fun c => c = ',')).dropWhile (fun c => c = ' ')) := by
  obtain ⟨u, us, rfl⟩ : ∃ u us, U = u :: us := by
    cases U with
    | nil => exact absurd rfl hU
    | cons u us => exact ⟨u, us, rfl⟩
  obtain ⟨r, rs, rfl⟩ : ∃ r rs, rel = r :: rs := by
    cases rel with
    | nil => exact absurd rfl hrel
    | cons r rs => exact ⟨r, rs, rfl⟩
  have ht1 := takeWhile_append_stop (fun c => decide (c ≠ '>')) (u :: us)
    (fun c hc => by simpa using hUc c hc) '>'
    (lit "; rel=\"" ++ ((r :: rs) ++ '"' :: tail)) (by decide)
  have ht2 := takeWhile_append_stop (fun c => decide (c ≠ '"')) (r :: rs)
    (fun c hc => by simpa using hrelc c hc) '"' tail (by decide)
  simp only [matchLink, ht1.1, ht1.2,
    if_pos (isPrefixOf_append_self (lit "; rel=\"") ((r :: rs) ++ '"' :: tail)),
    show (7 : Nat) = (lit "; rel=\"").length from rfl, List.drop_left, ht2.1, ht2.2]

theorem linkMatchesF_nil : ∀ fuel : Nat, linkMatchesF fuel [] = []
  | 0 => rfl
  | _ + 1 => rfl

theorem linkMatchesF_cons_match (fuel : Nat) (c : Char) (cs : List Char)
    (g1 g2 : PyStr) (rest : List Char) (h : matchLink (c :: cs) = some (g1, g2, rest)) :
    linkMatchesF (fuel + 1) (c :: cs) = (g1, g2) :: linkMatchesF fuel rest := by
  simp only [linkMatchesF, h]

/-- C5: for every pair of URLs, a `Link` header of the exact form
`<U1>; rel="next", <U2>; rel="last"` parses to the two `(url, rel)`
pairs in order, and the next-page URL extracted is exactly `U1`; the
pagination loop then follows precisely the extracted URL; and a page
carrying no `Link` header ends its collection's pagination with only
that page's repositories added. -/
theorem pagination_link_parsing (U1 U2 : PyStr)
    (h1 : U1 ≠ []) (h1c : ∀ c ∈ U1, ¬ c = '>')
    (h2 : U2 ≠ []) (h2c : ∀ c ∈ U2, ¬ c = '>') :
    (linkMatches (lit "<" ++ U1 ++ lit ">; rel=\"next\", <" ++ U2 ++ lit ">; rel=\"last\"") =
       [(U1, lit "next"), (U2, lit "last")] ∧
     extractNext (lit "<" ++ U1 ++ lit ">; rel=\"next\", <" ++ U2 ++ lit ">; rel=\"last\"") =
       some U1) ∧
    (∀ (server : Server) (pat : PyStr) (fuel : Nat) (uri : PyStr) (d : Dict)
       (page : Page) (header nxt : PyStr),
       server uri = some page → page.linkHeader = some header → extractNext header = some nxt →
       runPages server pat (fuel + 1) uri d =
         runPages server pat fuel nxt (page.repos.foldl (recordRepo pat) d)) ∧
    (∀ (server : Server) (pat : PyStr) (fuel : Nat) (uri : PyStr) (d : Dict) (page : Page),
       server uri = some page → page.linkHeader = none →
       runPages server pat (fuel + 1) uri d = page.repos.foldl (recordRepo pat) d) := by
  have hsh : lit "<" ++ U1 ++ lit ">; rel=\"next\", <" ++ U2 ++ lit ">; rel=\"last\"" =
      '<' :: (U1 ++ '>' :: (lit "; rel=\"" ++ (lit "next" ++ '"' ::
        (',' :: ' ' :: '<' :: (U2 ++ '>' :: (lit "; rel=\"" ++
          (lit "last" ++ '"' :: ([] : List Char)))))))) := by
    have ha : lit ">; rel=\"next\", <" =
        '>' :: (lit "; rel=\"" ++ (lit "next" ++ '"' :: (',' :: ' ' :: '<' ::
          ([] : List Char)))) := by decide
    have hb : lit ">; rel=\"last\"" =
        '>' :: (lit "; rel=\"" ++ (lit "last" ++ '"' :: ([] : List Char))) := by decide
    have hc : lit "<" = ('<' : Char) :: ([] : List Char) := by decide
    rw [ha, hb, hc]
    simp [List.append_assoc]
  have hm1 : matchLink ('<' :: (U1 ++ '>' :: (lit "; rel=\"" ++ (lit "next" ++ '"' ::
      (',' :: ' ' :: '<' :: (U2 ++ '>' :: (lit "; rel=\"" ++
        (lit "last" ++ '"' :: ([] : List Char))))))))) =
      some (U1, lit "next",
        '<' :: (U2 ++ '>' :: (lit "; rel=\"" ++ (lit "last" ++ '"' :: ([] : List Char))))) := by
    rw [matchLink_single U1 (lit "next") _ h1 h1c (by decide) (by decide)]
    simp [List.dropWhile_cons]
  have hm2 : matchLink ('<' :: (U2 ++ '>' :: (lit "; rel=\"" ++
      (lit "last" ++ '"' :: ([] : List Char))))) =
      some (U2, lit "last", ([] : List Char)) := by
    rw [matchLink_single U2 (lit "last") [] h2 h2c (by decide) (by decide)]
    rfl
  have hmain : linkMatches (lit "<" ++ U1 ++ lit ">; rel=\"next\", <" ++ U2 ++
      lit ">; rel=\"last\"") = [(U1, lit "next"), (U2, lit "last")] := by
    rw [linkMatches]
    have hlen : (lit "<" ++ U1 ++ lit ">; rel=\"next\", <" ++ U2 ++
        lit ">; rel=\"last\"").length = U1.length + U2.length + 28 + 1 + 1 := by
      have la : (lit "<").length = 1 := by decide
      have lb : (lit ">; rel=\"next\", <").length = 16 := by decide
      have lc : (lit ">; rel=\"last\"").length = 13 := by decide
      simp only [List.length_append, la, lb, lc]
      omega
    rw [hlen, hsh, linkMatchesF_cons_match _ _ _ _ _ _ hm1,
      linkMatchesF_cons_match _ _ _ _ _ _ hm2, linkMatchesF_nil]
  refine ⟨⟨hmain, ?_⟩, ?_, ?_⟩
  · rw [extractNext, hmain]
    simp only [List.foldl_cons, List.foldl_nil, if_pos rfl,
      if_neg (show ¬ (lit "last" = lit "next") by decide)]
    simp
  · intro server pat fuel uri d page header nxt hs hl hx
    simp only [runPages, hs, hl, hx]
  · intro server pat fuel uri d page hs hl
    simp only [runPages, hs, hl]

/-- C5 witness: the very header format quoted in the source's comment
(tutorial.py line 213). -/
theorem pagination_link_parsing_witness :
    (linkMatches (lit "<" ++ lit "https://api.github.com/organizations/7956953/repos?page=2" ++
         lit ">; rel=\"next\", <" ++
         lit "https://api.github.com/organizations/7956953/repos?page=3" ++
         lit ">; rel=\"last\"") =
       [(lit "https://api.github.com/organizations/7956953/repos?page=2", lit "next"),
        (lit "https://api.github.com/organizations/7956953/repos?page=3", lit "last")] ∧
     extractNext (lit "<" ++ lit "https://api.github.com/organizations/7956953/repos?page=2" ++
         lit ">; rel=\"next\", <" ++
         lit "https://api.github.com/organizations/7956953/repos?page=3" ++
         lit ">; rel=\"last\"") =
       some (lit "https://api.github.com/organizations/7956953/repos?page=2")) ∧
    (∀ (server : Server) (pat : PyStr) (fuel : Nat) (uri : PyStr) (d : Dict)
       (page : Page) (header nxt : PyStr),
       server uri = some page → page.linkHeader = some header → extractNext header = some nxt →
       runPages server pat (fuel + 1) uri d =
         runPages server pat fuel nxt (page.repos.foldl (recordRepo pat) d)) ∧
    (∀ (server : Server) (pat : PyStr) (fuel : Nat) (uri : PyStr) (d : Dict) (page : Page),
       server uri = some page → page.linkHeader = none →
       runPages server pat (fuel + 1) uri d = page.repos.foldl (recordRepo pat) d) :=
  pagination_link_parsing
    (lit "https://api.github.com/organizations/7956953/repos?page=2")
    (lit "https://api.github.com/organizations/7956953/repos?page=3")
    (by decide) (by decide) (by decide) (by decide)
